import Mathlib

/-!
# pico-smsplus: the bridge between the emulation core and the DVI output engine

A shallow embedding of `src/main.cpp`: the palette converter (`sms_palette_sync`),
the scan-row pipeline (`sms_render_line`), the screen-mode toggle (`screenMode`),
the controller poll (`processinput`) and the audio feed (`processaudio`).

Conventions of the embedding
* C `int` values are `Int`; array indices, sizes and bit masks are `Nat`.
* Memory reached through a raw pointer (`uint16_t *`, `const uint8_t *`) is a total
  function from the cell index to the cell value, so an unchecked C store is an
  unconditional function update.
* Globals (`dvi_`, `palette565`, `screenMode_`, `prevButtons`, ...) are explicit state.
* Constants, macros and classes declared in headers that are not part of `src/`
  (`shared.h`, `dvi/dvi.h`, `gamepad.h`) are parameters or are modelled from the spec,
  and are marked as such.
-/

namespace SmsPlus

/-! ## Output engine: line buffers -/

/-- One `dvi::DVI::LineBuffer`, seen through `data()`: cell index to `uint16_t` value. -/
abbrev LineBuffer := Nat → Nat

/-- Modelled from the spec: the line-buffer side of the output engine `dvi::DVI`
(declared in `dvi/dvi.h`, absent from `src/`), with the two operations the spec lists,
acquire-writable-line-buffer and submit-line-buffer(rowIndex, buffer).
`pool k` is the content of the buffer handed out by the `k`-th acquisition (whatever the
engine left in it), `acquired` counts the `getLineBuffer` calls and `submitted` is the
queue of `setLineBuffer` calls, oldest first. -/
structure Dvi where
  pool : Nat → LineBuffer
  acquired : Nat
  submitted : List (Int × LineBuffer)

/-- Modelled from the spec: `dvi_->getLineBuffer()`, acquire one writable line buffer. -/
def Dvi.getLineBuffer (d : Dvi) : LineBuffer × Dvi :=
  (d.pool d.acquired, { d with acquired := d.acquired + 1 })

/-- Modelled from the spec: `dvi_->setLineBuffer(line, b)`, submit a buffer keyed by
its absolute display row. -/
def Dvi.setLineBuffer (line : Int) (b : LineBuffer) (d : Dvi) : Dvi :=
  { d with submitted := d.submitted ++ [(line, b)] }

/-- The buffer the engine holds for display row `key`: the one submitted last under
that key, if any. -/
def Dvi.lineAt (d : Dvi) (key : Int) : Option LineBuffer :=
  (d.submitted.reverse.find? (fun e => decide (e.1 = key))).map Prod.snd

/-- The row keys of the submissions, oldest first. -/
def Dvi.keys (d : Dvi) : List Int :=
  d.submitted.map Prod.fst

/-! ## Video constants -/

/-- The macro `SCANLINEOFFSET` of `main.cpp`. -/
def SCANLINEOFFSET : Int := 25

/-- Modelled from the spec: the macro `SMS_HEIGHT` of `shared.h` (absent from `src/`);
the emulated frame has 192 rows ("SMS renders 192 lines"). -/
def SMS_HEIGHT : Int := 192

/-- The horizontal geometry `sms_render_line` reads from `shared.h` (absent from
`src/`): `BMP_WIDTH`, `BMP_X_OFFSET` and `screenCropX`, taken as parameters. -/
structure BitmapGeometry where
  BMP_WIDTH : Nat
  BMP_X_OFFSET : Nat
  screenCropX : Nat

/-- The values `lo, lo+1, ..., hi-1` of a loop `for (int v = lo; v < hi; v++)`. -/
def intRange (lo hi : Int) : List Int :=
  (List.range (hi - lo).toNat).map (fun (k : Nat) => lo + (k : Int))

/-- A store `p[k] = v` through a raw pointer or into an array. -/
def store {α : Type} (b : Nat → α) (k : Nat) (v : α) : Nat → α :=
  fun j => if j = k then v else b j

/-- The call `__builtin_memset(data + start, 0, 2 * count)`: `count` 16-bit cells
cleared from cell `start` on. -/
def memsetZero (b : LineBuffer) (start count : Nat) : LineBuffer :=
  fun j => if start ≤ j ∧ j < start + count then 0 else b j

/-- One turn of either blank-line loop: acquire, clear 512 bytes behind the 32-pixel
border, submit under `bl`. -/
def blankLine (bl : Int) (d : Dvi) : Dvi :=
  let (blank, d1) := d.getLineBuffer
  d1.setLineBuffer bl (memsetZero blank 32 256)

/-- The loop `for (int bl = lo; bl < hi; bl++) { ... }` of blank lines. -/
def blankLines (lo hi : Int) (d : Dvi) : Dvi :=
  (intRange lo hi).foldl (fun acc bl => blankLine bl acc) d

/-- The conversion loop
`for (int i = screenCropX; i < BMP_WIDTH - screenCropX; i++)
   sbuffer[i - screenCropX] = palette565[buffer[i + BMP_X_OFFSET] & 31];`
with `sbuffer = b->data() + 32`. -/
def convertLine (g : BitmapGeometry) (palette565 : Nat → Nat) (buffer : Nat → Nat)
    (b : LineBuffer) : LineBuffer :=
  (List.range' g.screenCropX (g.BMP_WIDTH - g.screenCropX - g.screenCropX)).foldl
    (fun acc i =>
      store acc (32 + (i - g.screenCropX)) (palette565 (buffer (i + g.BMP_X_OFFSET) &&& 31)))
    b

/-- The function `sms_render_line(int line, const uint8_t *buffer)`. -/
def sms_render_line (g : BitmapGeometry) (palette565 : Nat → Nat) (line : Int)
    (buffer : Nat → Nat) (d : Dvi) : Dvi :=
  let line := line + SCANLINEOFFSET
  if line < 4 then d
  else
    let d1 := if line = SCANLINEOFFSET then blankLines 4 SCANLINEOFFSET d else d
    let (b, d2) := d1.getLineBuffer
    let d3 := d2.setLineBuffer line (convertLine g palette565 buffer b)
    if line = SMS_HEIGHT + SCANLINEOFFSET - 1 then blankLines (line + 1) 236 d3 else d3

/-- One frame of video: the emulation core calls `sms_render_line` once for each
emulated row `0, 1, ..., SMS_HEIGHT - 1`, in increasing order; `rows line` is the
indexed-colour row handed over for `line`. -/
def renderFrame (g : BitmapGeometry) (palette565 : Nat → Nat) (rows : Int → Nat → Nat)
    (d : Dvi) : Dvi :=
  (intRange 0 SMS_HEIGHT).foldl
    (fun acc line => sms_render_line g palette565 line (rows line) acc) d

/-- A submitted row is a converted row of the source row `buffer`. -/
def IsConverted (g : BitmapGeometry) (palette565 : Nat → Nat) (buffer : Nat → Nat)
    (b : LineBuffer) : Prop :=
  ∀ i : Nat, g.screenCropX ≤ i → i < g.BMP_WIDTH - g.screenCropX →
    b (32 + (i - g.screenCropX)) = palette565 (buffer (i + g.BMP_X_OFFSET) &&& 31)

/-- A submitted row is a blank row: the 256 pixels behind the border are cleared. -/
def IsBlank (b : LineBuffer) : Prop :=
  ∀ j : Nat, 32 ≤ j → j < 288 → b j = 0

/-- The row keys one call of `sms_render_line` submits, in order. -/
def lineKeys (line : Int) : List Int :=
  let l := line + SCANLINEOFFSET
  if l < 4 then []
  else
    (if l = SCANLINEOFFSET then intRange 4 SCANLINEOFFSET else []) ++ [l] ++
      (if l = SMS_HEIGHT + SCANLINEOFFSET - 1 then intRange (l + 1) 236 else [])

/-! ## Palette converter -/

/-- The three `switch` statements and the final store of `sms_palette_sync(int index)`.
`color index c` is `bitmap.pal.color[index][c]`; `MAKE_PIXEL` is the pixel-packing macro
of `shared.h` (absent from `src/`), taken as a parameter; `palette565` is the cache
before the call and the result is the cache after it. -/
def sms_palette_sync (MAKE_PIXEL : Nat → Nat → Nat → Nat) (color : Nat → Nat → Nat)
    (index : Nat) (palette565 : Nat → Nat) : Nat → Nat :=
  let r : Nat :=
    match color index 0 with
    | 40 => 85
    | 128 => 170
    | 192 => 255
    | _ => 0
  let g : Nat :=
    match color index 1 with
    | 40 => 85
    | 128 => 170
    | 192 => 255
    | _ => 0
  let b : Nat :=
    match color index 2 with
    | 40 => 85
    | 128 => 170
    | 192 => 255
    | _ => 0
  store palette565 index (MAKE_PIXEL r g b)

/-- The channel map as the spec words it: 0→0, 40→85, 128→170, 192→255, any other raw
value → 0. This definition follows the spec, not the code; it is what
`sms_palette_sync` is compared with. -/
def quantizeSpec (v : Nat) : Nat :=
  if v = 0 then 0
  else if v = 40 then 85
  else if v = 128 then 170
  else if v = 192 then 255
  else 0

/-! ## Screen mode -/

/-- The enumeration `enum class ScreenMode`. -/
inductive ScreenMode where
  | SCANLINE_8_7
  | NOSCANLINE_8_7
  | SCANLINE_1_1
  | NOSCANLINE_1_1
  | MAX
  deriving DecidableEq, Repr

/-- The conversion `static_cast<int>(mode)`. -/
def ScreenMode.toInt : ScreenMode → Int
  | .SCANLINE_8_7 => 0
  | .NOSCANLINE_8_7 => 1
  | .SCANLINE_1_1 => 2
  | .NOSCANLINE_1_1 => 3
  | .MAX => 4

/-- The conversion `static_cast<ScreenMode>(v)` for the values the enumeration names;
`screenMode` only applies it to a value masked with `& 3`, which is one of 0..3. -/
def ScreenMode.ofValue : Nat → ScreenMode
  | 0 => .SCANLINE_8_7
  | 1 => .NOSCANLINE_8_7
  | 2 => .SCANLINE_1_1
  | 3 => .NOSCANLINE_1_1
  | _ => .MAX

/-- The bit pattern of a 32-bit `int`, as an unsigned number (two's complement). -/
def toUInt32 (x : Int) : Nat :=
  (x % 2 ^ 32).toNat

/-- The globals `screenMode_` and `scaleMode8_7_`, and the scan-line setting last
pushed to the output engine with `dvi_->setScanLine`. -/
structure ScreenState where
  screenMode_ : ScreenMode
  scaleMode8_7_ : Bool
  scanLine : Bool
  deriving DecidableEq, Repr

/-- The function `applyScreenMode()`: the `switch` has no case for `MAX`, which leaves
`scaleMode8_7_` as it was and the local `scanLine` at `false`. -/
def applyScreenMode (s : ScreenState) : ScreenState :=
  match s.screenMode_ with
  | .SCANLINE_1_1 => { s with scaleMode8_7_ := false, scanLine := true }
  | .SCANLINE_8_7 => { s with scaleMode8_7_ := true, scanLine := true }
  | .NOSCANLINE_1_1 => { s with scaleMode8_7_ := false, scanLine := false }
  | .NOSCANLINE_8_7 => { s with scaleMode8_7_ := true, scanLine := false }
  | .MAX => { s with scanLine := false }

/-- The function `screenMode(int incr)`:
`screenMode_ = static_cast<ScreenMode>((static_cast<int>(screenMode_) + incr) & 3)`
followed by `applyScreenMode()`. -/
def screenMode (incr : Int) (s : ScreenState) : ScreenState :=
  applyScreenMode
    { s with screenMode_ := ScreenMode.ofValue (toUInt32 (s.screenMode_.toInt + incr) &&& 3) }

/-! ## Input sampler -/

/-- The button masks `processinput` reads from headers absent from `src/`: the
`io::GamePadState::Button` masks of `gamepad.h` and the `INPUT_*` masks of the
emulation core, all taken as parameters. -/
structure InputMasks where
  LEFT : Nat
  RIGHT : Nat
  UP : Nat
  DOWN : Nat
  A : Nat
  B : Nat
  SELECT : Nat
  START : Nat
  INPUT_LEFT : Nat
  INPUT_RIGHT : Nat
  INPUT_UP : Nat
  INPUT_DOWN : Nat
  INPUT_BUTTON1 : Nat
  INPUT_BUTTON2 : Nat
  INPUT_PAUSE : Nat
  INPUT_START : Nat

/-- The conversion of a value to `DWORD` (32-bit unsigned). -/
def toDWORD (x : Nat) : Nat :=
  x % 2 ^ 32

/-- The operator `~` on a `DWORD`. -/
def notDWORD (x : Nat) : Nat :=
  toDWORD x ^^^ (2 ^ 32 - 1)

/-- The conditional `gp.buttons & mask ? value : 0`. -/
def pick (buttons mask value : Nat) : Nat :=
  if buttons &&& mask ≠ 0 then value else 0

/-- The local `smsbuttons`: the gameplay buttons mapped from the raw snapshot. -/
def smsbuttonsOf (c : InputMasks) (buttons : Nat) : Nat :=
  pick buttons c.LEFT c.INPUT_LEFT ||| pick buttons c.RIGHT c.INPUT_RIGHT |||
    pick buttons c.UP c.INPUT_UP ||| pick buttons c.DOWN c.INPUT_DOWN |||
    pick buttons c.A c.INPUT_BUTTON1 ||| pick buttons c.B c.INPUT_BUTTON2 ||| 0

/-- The value stored in `smssystem[i]`: the system buttons mapped from the snapshot. -/
def smssystemOf (c : InputMasks) (buttons : Nat) : Nat :=
  pick buttons c.SELECT c.INPUT_PAUSE ||| pick buttons c.START c.INPUT_START ||| 0

/-- The state `processinput` reads and writes: the statics `prevButtons`,
`prevButtonssystem` and `fps_enabled`, the fields `input.pad` and `input.system` of the
emulation core, and the screen-mode globals. The field `pushed` records, per player,
the last value of the local `pushed`, and `pushedsystem` that of `pushedsystem`; the
program keeps neither, they are there so that theorems can speak of them. -/
structure InputState where
  prevButtons : Nat → Nat
  prevButtonssystem : Nat → Nat
  pad : Nat → Nat
  system : Nat
  fps_enabled : Bool
  screen : ScreenState
  pushed : Nat → Nat
  pushedsystem : Nat → Nat

/-- The body of the loop `for (int i = 0; i < 2; i++)` of `processinput`, for player `i`
with raw snapshot `buttons = io::getCurrentGamePadState(i).buttons`. -/
def processPlayer (c : InputMasks) (buttons : Nat) (i : Nat) (st : InputState) :
    InputState :=
  let smsbuttons := smsbuttonsOf c buttons
  let smssystem := smssystemOf c buttons
  let st1 := { st with pad := store st.pad i smsbuttons }
  let p1 := smssystem
  let pushed := toDWORD smsbuttons &&& notDWORD (st1.prevButtons i)
  let pushedsystem := toDWORD smssystem &&& notDWORD (st1.prevButtonssystem i)
  let st2 :=
    if p1 &&& c.INPUT_START ≠ 0 then
      let st1a :=
        if pushed &&& c.INPUT_BUTTON1 ≠ 0 then { st1 with fps_enabled := !st1.fps_enabled }
        else st1
      if pushed &&& c.INPUT_UP ≠ 0 then { st1a with screen := screenMode (-1) st1a.screen }
      else if pushed &&& c.INPUT_DOWN ≠ 0 then
        { st1a with screen := screenMode 1 st1a.screen }
      else st1a
    else st1
  { st2 with
    prevButtons := store st2.prevButtons i (toDWORD smsbuttons)
    prevButtonssystem := store st2.prevButtonssystem i (toDWORD smssystem)
    pushed := store st2.pushed i pushed
    pushedsystem := store st2.pushedsystem i pushedsystem }

/-- The function `processinput()`; `gp i` is the raw snapshot of player `i`. -/
def processinput (c : InputMasks) (gp : Nat → Nat) (st : InputState) : InputState :=
  let st1 := processPlayer c (gp 0) 0 st
  let st2 := processPlayer c (gp 1) 1 st1
  { st2 with system := smssystemOf c (gp 0) ||| smssystemOf c (gp 1) }

/-- A sequence of polls, one `processinput()` per frame, oldest snapshot first. -/
def polls (c : InputMasks) (gps : List (Nat → Nat)) (st : InputState) : InputState :=
  gps.foldl (fun acc gp => processinput c gp acc) st

/-! ## Audio bridge -/

/-- A value wrapped into the range of a signed integer of `w` bits. -/
def wrapSigned (w : Nat) (v : Int) : Int :=
  (v + 2 ^ (w - 1)) % 2 ^ w - 2 ^ (w - 1)

/-- The part of the emulation core's `snd` that `processaudio` reads: `bufsize` and
the two channels `buffer[0]`, `buffer[1]` of 16-bit samples. -/
structure Snd where
  bufsize : Nat
  buffer : Nat → Nat → Int

/-- Modelled from the spec: the stereo ring buffer of the output engine
(`dvi_->getAudioRingBuffer()`, declared in headers absent from `src/`), a bounded
single-producer single-consumer queue with "monotonic cursor/size accounting":
`slots p` is the stereo pair at absolute position `p` of the stream, `writePos` and
`readPos` count the pairs committed by the producer and taken by the consumer,
`capacity` bounds `writePos - readPos`, and `advances` lists the arguments of the
`advanceWritePointer` calls, oldest first. -/
structure AudioRing where
  capacity : Nat
  readPos : Nat
  writePos : Nat
  slots : Nat → Int × Int
  advances : List Nat

/-- Modelled from the spec: `ring.getWritableSize()`, the free capacity
`capacity - (writePos - readPos)`. -/
def AudioRing.getWritableSize (r : AudioRing) : Nat :=
  r.capacity + r.readPos - r.writePos

/-- Modelled from the spec: a store `p[k] = v` through `p = ring.getWritePointer()`. -/
def AudioRing.writeAt (r : AudioRing) (k : Nat) (v : Int × Int) : AudioRing :=
  { r with slots := store r.slots (r.writePos + k) v }

/-- Modelled from the spec: `ring.advanceWritePointer(n)`. -/
def AudioRing.advanceWritePointer (r : AudioRing) (n : Nat) : AudioRing :=
  { r with writePos := r.writePos + n, advances := r.advances ++ [n] }

/-- Modelled from the spec: the consumer (the output engine's audio clock) taking `n`
pairs out of the ring, never more than are stored. -/
def AudioRing.consume (r : AudioRing) (n : Nat) : AudioRing :=
  { r with readPos := r.readPos + min n (r.writePos - r.readPos) }

/-- The stream delivered to the ring so far: the pairs at positions `0 .. writePos-1`. -/
def AudioRing.delivered (r : AudioRing) : List (Int × Int) :=
  (List.range r.writePos).map r.slots

/-- The first loop of `processaudio`:
`for (x = 0; x < snd.bufsize; x++) audio_buffer[x] = (snd.buffer[0][x] << 16) + snd.buffer[1][x];`
on the 32-bit `int` array `audio_buffer`. -/
def fillAudioBuffer (snd : Snd) (audio_buffer : Nat → Int) : Nat → Int :=
  (List.range snd.bufsize).foldl
    (fun acc x => store acc x (wrapSigned 32 (snd.buffer 0 x * 65536 + snd.buffer 1 x)))
    audio_buffer

/-- The read `wave[k]` through `short *wave = (short *)audio_buffer` on the
little-endian RP2040: the even shorts are the low halves of the 32-bit cells, the odd
shorts the high halves. -/
def waveAt (audio_buffer : Nat → Int) (k : Nat) : Int :=
  if k % 2 = 0 then wrapSigned 16 (audio_buffer (k / 2))
  else wrapSigned 16 (audio_buffer (k / 2) / 65536)

/-- The local `m_volume` of `processaudio`. -/
def m_volume : Int := 50

/-- The local `m_volume_max` of `processaudio`, which the function never reads. -/
def m_volume_max : Int := 80

/-- The two lines `short l = (int16_t)((*wave++ * m_volume) / 100); short r = l;` and
the pair stored from them. C division truncates toward zero. -/
def stereoPair (w : Int) : Int × Int :=
  let l := wrapSigned 16 (Int.tdiv (w * m_volume) 100)
  let r := l
  (l, r)

/-- The inner loop `while (ct--) { ...; *p++ = {l, r}; }` for a chunk of `n` shorts
read from `wave + pos`. -/
def writeChunk (wave : Nat → Int) (pos n : Nat) (ring : AudioRing) : AudioRing :=
  (List.range n).foldl (fun acc k => acc.writeAt k (stereoPair (wave (pos + k)))) ring

/-- The loop `while (samples) { ... }` of `processaudio`, with `pos` the number of
shorts already read through `wave`. Each turn that does not return writes at least
one sample, so `fuel = samples` turns always suffice. -/
def writeLoop : (fuel : Nat) → (wave : Nat → Int) → (pos samples : Nat) → AudioRing → AudioRing
  | 0, _, _, _, ring => ring
  | fuel + 1, wave, pos, samples, ring =>
    if samples = 0 then ring
    else
      let n := min samples ring.getWritableSize
      if n = 0 then ring
      else
        let ring1 := writeChunk wave pos n ring
        let ring2 := ring1.advanceWritePointer n
        writeLoop fuel wave (pos + n) (samples - n) ring2

/-- The state `processaudio` works on: the static `audio_buffer` and the ring. -/
structure AudioState where
  audio_buffer : Nat → Int
  ring : AudioRing

/-- The local `samples = snd.bufsize * m_channels` of `processaudio`, `m_channels = 2`. -/
def pendingSamples (snd : Snd) : Nat :=
  snd.bufsize * 2

/-- The function `processaudio()`. -/
def processaudio (snd : Snd) (st : AudioState) : AudioState :=
  let audio_buffer := fillAudioBuffer snd st.audio_buffer
  let samples := pendingSamples snd
  { audio_buffer := audio_buffer
    ring := writeLoop samples (waveAt audio_buffer) 0 samples st.ring }

/-! ## Sample data

Concrete inputs at which the theorems below are instantiated. The numeric values of
the header constants are not part of `src/`; the ones here are examples. -/

/-- A sample geometry: a 288-pixel bitmap row cropped by 16 pixels on both sides. -/
def sampleGeometry : BitmapGeometry :=
  { BMP_WIDTH := 288, BMP_X_OFFSET := 0, screenCropX := 16 }

/-- A sample converted-pixel cache. -/
def samplePalette : Nat → Nat :=
  fun k => 1000 + k

/-- A sample indexed-colour row: byte `k` holds `k mod 256`. -/
def sampleRow : Nat → Nat :=
  fun k => k % 256

/-- An output engine that has handed out and received nothing yet; the buffers of its
pool hold `0xFFFF` in every cell. -/
def emptyDvi : Dvi :=
  { pool := fun _ _ => 65535, acquired := 0, submitted := [] }

/-- A sample palette of the emulation core: slot 3 holds the channels 40, 128, 192 and
every other slot is black. -/
def sampleColor : Nat → Nat → Nat :=
  fun index c => if index = 3 then (if c = 0 then 40 else if c = 1 then 128 else 192) else 0

/-- A sample pixel packing: RGB565. -/
def samplePixel (r g b : Nat) : Nat :=
  (r / 8) * 2048 + (g / 4) * 32 + b / 8

/-- The screen state at start-up: `screenMode_{}` is the first enumerator. -/
def initialScreen : ScreenState :=
  { screenMode_ := .SCANLINE_8_7, scaleMode8_7_ := true, scanLine := true }

/-- Sample button masks: one bit per button. -/
def sampleMasks : InputMasks :=
  { A := 1, B := 2, SELECT := 4, START := 8, UP := 16, DOWN := 32, LEFT := 64, RIGHT := 128,
    INPUT_UP := 1, INPUT_DOWN := 2, INPUT_LEFT := 4, INPUT_RIGHT := 8,
    INPUT_BUTTON2 := 16, INPUT_BUTTON1 := 32,
    INPUT_START := 1, INPUT_PAUSE := 2 }

/-- The input state at start-up: the statics are zero-initialised. -/
def initialInput : InputState :=
  { prevButtons := fun _ => 0, prevButtonssystem := fun _ => 0, pad := fun _ => 0,
    system := 0, fps_enabled := false, screen := initialScreen,
    pushed := fun _ => 0, pushedsystem := fun _ => 0 }

/-- A poll in which player 0 holds START and A (masks 8 and 1) and player 1 nothing. -/
def startAndA : Nat → Nat :=
  fun i => if i = 0 then 9 else 0

/-- A poll in which player 0 holds A only. -/
def onlyA : Nat → Nat :=
  fun i => if i = 0 then 1 else 0

/-- A frame of one element: channel 0 holds 1000, channel 1 holds 2000. -/
def sndOne : Snd :=
  { bufsize := 1, buffer := fun ch _ => if ch = 0 then 1000 else 2000 }

/-- A frame of two elements: channel 0 holds 1000, 3000 and channel 1 holds 2000, 4000. -/
def sndTwo : Snd :=
  { bufsize := 2
    buffer := fun ch x =>
      if ch = 0 then (if x = 0 then 1000 else 3000) else (if x = 0 then 2000 else 4000) }

/-- A silent frame of two elements. -/
def sndSilent : Snd :=
  { bufsize := 2, buffer := fun _ _ => 0 }

/-- An audio state with an empty ring of 256 pairs. -/
def emptyAudio : AudioState :=
  { audio_buffer := fun _ => 0
    ring := { capacity := 256, readPos := 0, writePos := 0, slots := fun _ => (0, 0),
              advances := [] } }

/-- An audio state whose ring of 8 pairs holds 7 silent pairs: one slot is free. -/
def nearlyFullAudio : AudioState :=
  { audio_buffer := fun _ => 0
    ring := { capacity := 8, readPos := 0, writePos := 7, slots := fun _ => (0, 0),
              advances := [] } }

/-! ## Lemmas on the line-buffer pipeline -/

theorem blankLines_fold_keys (l : List Int) (d : Dvi) :
    (l.foldl (fun acc bl => blankLine bl acc) d).submitted.map Prod.fst =
      d.submitted.map Prod.fst ++ l ∧
    (l.foldl (fun acc bl => blankLine bl acc) d).acquired = d.acquired + l.length ∧
    (l.foldl (fun acc bl => blankLine bl acc) d).pool = d.pool := by
  induction l generalizing d with
  | nil => simp
  | cons a t ih =>
    obtain ⟨h1, h2, h3⟩ := ih (blankLine a d)
    simp only [List.foldl_cons, h1, h2, h3]
    simp [blankLine, Dvi.getLineBuffer, Dvi.setLineBuffer]
    omega

theorem blankLines_keys (lo hi : Int) (d : Dvi) :
    (blankLines lo hi d).submitted.map Prod.fst = d.submitted.map Prod.fst ++ intRange lo hi :=
  (blankLines_fold_keys (intRange lo hi) d).1

theorem blankLines_acquired (lo hi : Int) (d : Dvi) :
    (blankLines lo hi d).acquired = d.acquired + (intRange lo hi).length :=
  (blankLines_fold_keys (intRange lo hi) d).2.1

theorem sms_render_line_keys (g : BitmapGeometry) (pal : Nat → Nat) (line : Int)
    (buffer : Nat → Nat) (d : Dvi) :
    (sms_render_line g pal line buffer d).keys = d.keys ++ lineKeys line := by
  unfold sms_render_line lineKeys
  generalize line + SCANLINEOFFSET = l
  dsimp only
  split_ifs <;>
    simp [blankLines_keys, Dvi.getLineBuffer, Dvi.setLineBuffer, Dvi.keys]

theorem sms_render_line_acquired (g : BitmapGeometry) (pal : Nat → Nat) (line : Int)
    (buffer : Nat → Nat) (d : Dvi) :
    (sms_render_line g pal line buffer d).acquired = d.acquired + (lineKeys line).length := by
  unfold sms_render_line lineKeys
  generalize line + SCANLINEOFFSET = l
  dsimp only
  split_ifs <;>
    simp [blankLines_acquired, Dvi.getLineBuffer, Dvi.setLineBuffer] <;> omega

theorem mem_intRange (lo hi k : Int) : k ∈ intRange lo hi ↔ lo ≤ k ∧ k < hi := by
  unfold intRange
  simp only [List.mem_map, List.mem_range]
  constructor
  · rintro ⟨n, hn, rfl⟩
    rw [Int.lt_toNat] at hn
    constructor <;> omega
  · rintro ⟨h1, h2⟩
    refine ⟨(k - lo).toNat, ?_, ?_⟩
    · rw [Int.lt_toNat, Int.toNat_of_nonneg (by omega)]
      omega
    · rw [Int.toNat_of_nonneg (by omega)]
      omega

theorem intRange_length (lo hi : Int) : (intRange lo hi).length = (hi - lo).toNat := by
  simp [intRange]

theorem intRange_nodup (lo hi : Int) : (intRange lo hi).Nodup := by
  unfold intRange
  refine (List.nodup_range _).map ?_
  intro a b hab
  simpa using hab

theorem renderFrame_fold (g : BitmapGeometry) (pal : Nat → Nat) (rows : Int → Nat → Nat)
    (l : List Int) (d : Dvi) :
    (l.foldl (fun acc line => sms_render_line g pal line (rows line) acc) d).keys =
      d.keys ++ l.flatMap lineKeys ∧
    (l.foldl (fun acc line => sms_render_line g pal line (rows line) acc) d).acquired =
      d.acquired + (l.flatMap lineKeys).length := by
  induction l generalizing d with
  | nil => simp
  | cons a t ih =>
    obtain ⟨h1, h2⟩ := ih (sms_render_line g pal a (rows a) d)
    simp only [List.foldl_cons, h1, h2, sms_render_line_keys, sms_render_line_acquired,
      List.flatMap_cons, List.append_assoc, List.length_append]
    exact ⟨trivial, by omega⟩

set_option maxRecDepth 100000 in
theorem frame_keys : (intRange 0 SMS_HEIGHT).flatMap lineKeys = intRange 4 236 := by
  decide

theorem store_fold_other {α : Type} (f : Nat → Nat) (v : Nat → α) (l : List Nat)
    (b : Nat → α) (p : Nat) (h : ∀ j ∈ l, f j ≠ p) :
    (l.foldl (fun acc i => store acc (f i) (v i)) b) p = b p := by
  induction l generalizing b with
  | nil => rfl
  | cons a t ih =>
    rw [List.foldl_cons, ih _ (fun j hj => h j (List.mem_cons_of_mem a hj))]
    have ha : p ≠ f a := fun e => h a (List.mem_cons_self a t) e.symm
    simp [store, ha]

theorem store_fold_mem {α : Type} (f : Nat → Nat) (v : Nat → α) (l : List Nat)
    (b : Nat → α) (hnd : l.Nodup) (hinj : ∀ i ∈ l, ∀ j ∈ l, f i = f j → i = j) (i : Nat) (hi : i ∈ l) :
    (l.foldl (fun acc k => store acc (f k) (v k)) b) (f i) = v i := by
  induction l generalizing b with
  | nil => cases hi
  | cons a t ih =>
    rw [List.foldl_cons]
    rw [List.nodup_cons] at hnd
    rcases List.mem_cons.mp hi with rfl | hit
    · rw [store_fold_other]
      · simp [store]
      · intro j hj e
        have := hinj j (List.mem_cons_of_mem _ hj) i (List.mem_cons_self _ _) e
        exact hnd.1 (this ▸ hj)
    · exact ih _ hnd.2
        (fun x hx y hy => hinj x (List.mem_cons_of_mem _ hx) y (List.mem_cons_of_mem _ hy)) hit

theorem convertLine_at (g : BitmapGeometry) (pal : Nat → Nat) (buffer : Nat → Nat)
    (b : LineBuffer) (i : Nat) (h1 : g.screenCropX ≤ i)
    (h2 : i < g.BMP_WIDTH - g.screenCropX) :
    convertLine g pal buffer b (32 + (i - g.screenCropX)) =
      pal (buffer (i + g.BMP_X_OFFSET) &&& 31) := by
  unfold convertLine
  refine store_fold_mem (fun k => 32 + (k - g.screenCropX))
    (fun k => pal (buffer (k + g.BMP_X_OFFSET) &&& 31)) _ b (List.nodup_range' _ _) ?_ i ?_
  · intro x hx y hy e
    rw [List.mem_range'_1] at hx hy
    dsimp only at e
    omega
  · rw [List.mem_range'_1]
    omega

theorem lineAt_setLineBuffer_self (d : Dvi) (l : Int) (b : LineBuffer) :
    (d.setLineBuffer l b).lineAt l = some b := by
  simp [Dvi.lineAt, Dvi.setLineBuffer]

theorem lineAt_blankLine_ne (d : Dvi) (l bl : Int) (h : bl ≠ l) :
    (blankLine bl d).lineAt l = d.lineAt l := by
  simp [Dvi.lineAt, blankLine, Dvi.setLineBuffer, Dvi.getLineBuffer, h]

theorem lineAt_blankLines_fold (ls : List Int) (d : Dvi) (l : Int) (h : l ∉ ls) :
    (ls.foldl (fun acc bl => blankLine bl acc) d).lineAt l = d.lineAt l := by
  induction ls generalizing d with
  | nil => rfl
  | cons a t ih =>
    rw [List.foldl_cons, ih _ (fun hm => h (List.mem_cons_of_mem _ hm))]
    exact lineAt_blankLine_ne d l a (fun e => h (e ▸ List.mem_cons_self _ _))

theorem lineAt_blankLines (lo hi : Int) (d : Dvi) (l : Int) (h : l < lo ∨ hi ≤ l) :
    (blankLines lo hi d).lineAt l = d.lineAt l :=
  lineAt_blankLines_fold _ d l (by rw [mem_intRange]; omega)

theorem sms_render_line_lineAt (g : BitmapGeometry) (pal : Nat → Nat) (line : Int)
    (buffer : Nat → Nat) (d : Dvi) (h : 4 ≤ line + SCANLINEOFFSET) :
    ∃ b0 : LineBuffer,
      (sms_render_line g pal line buffer d).lineAt (line + SCANLINEOFFSET) =
        some (convertLine g pal buffer b0) := by
  unfold sms_render_line
  generalize line + SCANLINEOFFSET = l at h
  dsimp only
  rw [if_neg (by omega)]
  split_ifs with hb
  all_goals first
    | exact ⟨_, lineAt_setLineBuffer_self _ _ _⟩
    | exact ⟨_, (lineAt_blankLines _ _ _ _ (Or.inl (by omega))).trans
        (lineAt_setLineBuffer_self _ _ _)⟩

/-! ## The content of the submitted rows -/

theorem blankLines_fold_entries (l : List Int) (d : Dvi) :
    ∃ es : List (Int × LineBuffer),
      (l.foldl (fun acc bl => blankLine bl acc) d).submitted = d.submitted ++ es ∧
      es.map Prod.fst = l ∧
      ∀ e ∈ es, ∃ b0 : LineBuffer, e.2 = memsetZero b0 32 256 := by
  induction l generalizing d with
  | nil => exact ⟨[], by simp, rfl, by simp⟩
  | cons a t ih =>
    obtain ⟨es, h1, h2, h3⟩ := ih (blankLine a d)
    refine ⟨(a, memsetZero (d.pool d.acquired) 32 256) :: es, ?_, ?_, ?_⟩
    · rw [List.foldl_cons, h1]
      simp [blankLine, Dvi.getLineBuffer, Dvi.setLineBuffer]
    · simp [h2]
    · intro e he
      rcases List.mem_cons.mp he with rfl | he
      · exact ⟨_, rfl⟩
      · exact h3 e he

theorem blankLines_entries (lo hi : Int) (d : Dvi) :
    ∃ es : List (Int × LineBuffer),
      (blankLines lo hi d).submitted = d.submitted ++ es ∧
      ∀ e ∈ es, (lo ≤ e.1 ∧ e.1 < hi) ∧ ∃ b0 : LineBuffer, e.2 = memsetZero b0 32 256 := by
  obtain ⟨es, h1, h2, h3⟩ := blankLines_fold_entries (intRange lo hi) d
  refine ⟨es, h1, fun e he => ⟨?_, h3 e he⟩⟩
  have hm : e.1 ∈ es.map Prod.fst := List.mem_map_of_mem Prod.fst he
  rw [h2, mem_intRange] at hm
  exact hm

theorem memsetZero_isBlank (b0 : LineBuffer) : IsBlank (memsetZero b0 32 256) := by
  intro j h1 h2
  have h : 32 ≤ j ∧ j < 32 + 256 := ⟨h1, by omega⟩
  simp [memsetZero, h]

theorem convertLine_isConverted (g : BitmapGeometry) (pal : Nat → Nat) (buffer : Nat → Nat)
    (b0 : LineBuffer) : IsConverted g pal buffer (convertLine g pal buffer b0) :=
  fun i h1 h2 => convertLine_at g pal buffer b0 i h1 h2

theorem sms_render_line_entries (g : BitmapGeometry) (pal : Nat → Nat) (line : Int)
    (buffer : Nat → Nat) (d : Dvi) :
    ∃ es : List (Int × LineBuffer),
      (sms_render_line g pal line buffer d).submitted = d.submitted ++ es ∧
      ∀ e ∈ es,
        (e.1 = line + SCANLINEOFFSET ∧ IsConverted g pal buffer e.2) ∨
        (((4 ≤ e.1 ∧ e.1 < SCANLINEOFFSET) ∨
            (SMS_HEIGHT + SCANLINEOFFSET - 1 < e.1 ∧ e.1 < 236)) ∧ IsBlank e.2) := by
  unfold sms_render_line
  generalize line + SCANLINEOFFSET = l
  dsimp only
  by_cases h4 : l < 4
  · rw [if_pos h4]
    exact ⟨[], by simp, by simp⟩
  · rw [if_neg h4]
    have htop : ∃ es1 : List (Int × LineBuffer),
        (if l = SCANLINEOFFSET then blankLines 4 SCANLINEOFFSET d else d).submitted =
          d.submitted ++ es1 ∧
        ∀ e ∈ es1, (4 ≤ e.1 ∧ e.1 < SCANLINEOFFSET) ∧ IsBlank e.2 := by
      split_ifs
      · obtain ⟨es, h1, h2⟩ := blankLines_entries 4 SCANLINEOFFSET d
        refine ⟨es, h1, fun e he => ⟨(h2 e he).1, ?_⟩⟩
        obtain ⟨b0, hb0⟩ := (h2 e he).2
        rw [hb0]
        exact memsetZero_isBlank b0
      · exact ⟨[], by simp, by simp⟩
    obtain ⟨es1, he1, hp1⟩ := htop
    generalize (if l = SCANLINEOFFSET then blankLines 4 SCANLINEOFFSET d else d) = d1 at he1
    by_cases hb : l = SMS_HEIGHT + SCANLINEOFFSET - 1
    · rw [if_pos hb]
      obtain ⟨es3, he3, hp3⟩ := blankLines_entries (l + 1) 236
        (d1.getLineBuffer.2.setLineBuffer l (convertLine g pal buffer d1.getLineBuffer.1))
      refine ⟨es1 ++ [(l, convertLine g pal buffer d1.getLineBuffer.1)] ++ es3, ?_, ?_⟩
      · rw [he3]
        simp [Dvi.setLineBuffer, Dvi.getLineBuffer, he1]
      · intro e he
        rcases List.mem_append.mp he with he | he
        · rcases List.mem_append.mp he with he | he
          · exact Or.inr ⟨Or.inl (hp1 e he).1, (hp1 e he).2⟩
          · rw [List.mem_singleton] at he
            subst he
            exact Or.inl ⟨rfl, convertLine_isConverted g pal buffer _⟩
        · refine Or.inr ⟨Or.inr ⟨?_, (hp3 e he).1.2⟩, ?_⟩
          · have := (hp3 e he).1.1
            omega
          · obtain ⟨b0, hb0⟩ := (hp3 e he).2
            rw [hb0]
            exact memsetZero_isBlank b0
    · rw [if_neg hb]
      refine ⟨es1 ++ [(l, convertLine g pal buffer d1.getLineBuffer.1)], ?_, ?_⟩
      · simp [Dvi.setLineBuffer, Dvi.getLineBuffer, he1]
      · intro e he
        rcases List.mem_append.mp he with he | he
        · exact Or.inr ⟨Or.inl (hp1 e he).1, (hp1 e he).2⟩
        · rw [List.mem_singleton] at he
          subst he
          exact Or.inl ⟨rfl, convertLine_isConverted g pal buffer _⟩

theorem renderFrame_fold_entries (g : BitmapGeometry) (pal : Nat → Nat)
    (rows : Int → Nat → Nat) (l : List Int) (d : Dvi)
    (hl : ∀ line ∈ l, 0 ≤ line ∧ line < SMS_HEIGHT) :
    ∃ es : List (Int × LineBuffer),
      (l.foldl (fun acc line => sms_render_line g pal line (rows line) acc) d).submitted =
        d.submitted ++ es ∧
      ∀ e ∈ es,
        ((SCANLINEOFFSET ≤ e.1 ∧ e.1 ≤ SMS_HEIGHT + SCANLINEOFFSET - 1) ∧
          IsConverted g pal (rows (e.1 - SCANLINEOFFSET)) e.2) ∨
        (((4 ≤ e.1 ∧ e.1 < SCANLINEOFFSET) ∨
            (SMS_HEIGHT + SCANLINEOFFSET - 1 < e.1 ∧ e.1 < 236)) ∧ IsBlank e.2) := by
  induction l generalizing d with
  | nil => exact ⟨[], by simp, by simp⟩
  | cons a t ih =>
    obtain ⟨es1, h1, p1⟩ := sms_render_line_entries g pal a (rows a) d
    obtain ⟨es2, h2, p2⟩ := ih (sms_render_line g pal a (rows a) d)
      (fun x hx => hl x (List.mem_cons_of_mem _ hx))
    refine ⟨es1 ++ es2, ?_, ?_⟩
    · rw [List.foldl_cons, h2, h1, List.append_assoc]
    · intro e he
      rcases List.mem_append.mp he with he | he
      · rcases p1 e he with ⟨hk, hc⟩ | hblank
        · have ha := hl a (List.mem_cons_self _ _)
          refine Or.inl ⟨⟨by omega, by omega⟩, ?_⟩
          have : e.1 - SCANLINEOFFSET = a := by omega
          rw [this]
          exact hc
        · exact Or.inr hblank
      · exact p2 e he

theorem channel_switch_eq (v : Nat) :
    (match v with
      | 40 => 85
      | 128 => 170
      | 192 => 255
      | _ => 0 : Nat) = quantizeSpec v := by
  unfold quantizeSpec
  split
  · rfl
  · rfl
  · rfl
  · rename_i h1 h2 h3
    have e1 : ¬ v = 40 := fun e => h1 e
    have e2 : ¬ v = 128 := fun e => h2 e
    have e3 : ¬ v = 192 := fun e => h3 e
    simp [e1, e2, e3]

theorem sms_render_line_past_last_row (g : BitmapGeometry) (pal : Nat → Nat) (line : Int)
    (buffer : Nat → Nat) (d : Dvi) (h : SMS_HEIGHT + SCANLINEOFFSET - 1 < line + SCANLINEOFFSET) :
    (sms_render_line g pal line buffer d).acquired = d.acquired + 1 ∧
    (sms_render_line g pal line buffer d).keys = d.keys ++ [line + SCANLINEOFFSET] := by
  have hk : lineKeys line = [line + SCANLINEOFFSET] := by
    unfold lineKeys
    generalize line + SCANLINEOFFSET = l at h
    have h1 : ¬ l < 4 := by simp only [SMS_HEIGHT, SCANLINEOFFSET] at h; omega
    have h2 : ¬ l = SCANLINEOFFSET := by
      simp only [SMS_HEIGHT, SCANLINEOFFSET] at h ⊢; omega
    have h3 : ¬ l = SMS_HEIGHT + SCANLINEOFFSET - 1 := by omega
    simp [h1, h2, h3]
  rw [sms_render_line_acquired, sms_render_line_keys, hk]
  simp

/-! ## Lemmas on the input sampler -/

theorem testBit_toDWORD (x b : Nat) (hb : b < 32) : (toDWORD x).testBit b = x.testBit b := by
  unfold toDWORD
  rw [Nat.testBit_mod_two_pow]
  simp [hb]

theorem testBit_notDWORD (x b : Nat) (hb : b < 32) :
    (notDWORD x).testBit b = !(x.testBit b) := by
  unfold notDWORD
  rw [Nat.testBit_xor, testBit_toDWORD x b hb, Nat.testBit_two_pow_sub_one]
  simp [hb]

theorem testBit_pushed (cur prev b : Nat) (hb : b < 32) :
    (toDWORD cur &&& notDWORD prev).testBit b = (cur.testBit b && !(prev.testBit b)) := by
  rw [Nat.testBit_and, testBit_toDWORD cur b hb, testBit_notDWORD prev b hb]

theorem processPlayer_fields (c : InputMasks) (buttons i : Nat) (st : InputState) :
    (processPlayer c buttons i st).prevButtons = store st.prevButtons i
      (toDWORD (smsbuttonsOf c buttons)) ∧
    (processPlayer c buttons i st).pushed = store st.pushed i
      (toDWORD (smsbuttonsOf c buttons) &&& notDWORD (st.prevButtons i)) ∧
    (processPlayer c buttons i st).pad = store st.pad i (smsbuttonsOf c buttons) := by
  unfold processPlayer
  dsimp only
  split_ifs <;> exact ⟨rfl, rfl, rfl⟩

theorem processinput_fields (c : InputMasks) (gp : Nat → Nat) (st : InputState) (i : Nat)
    (hi : i < 2) :
    (processinput c gp st).prevButtons i = toDWORD (smsbuttonsOf c (gp i)) ∧
    (processinput c gp st).pushed i =
      (toDWORD (smsbuttonsOf c (gp i)) &&& notDWORD (st.prevButtons i)) ∧
    (processinput c gp st).pad i = smsbuttonsOf c (gp i) := by
  obtain ⟨a1, a2, a3⟩ := processPlayer_fields c (gp 0) 0 st
  obtain ⟨b1, b2, b3⟩ := processPlayer_fields c (gp 1) 1 (processPlayer c (gp 0) 0 st)
  unfold processinput
  dsimp only
  rw [b1, b2, b3, a1, a2, a3]
  have hcases : i = 0 ∨ i = 1 := by omega
  rcases hcases with rfl | rfl <;> simp [store]

theorem processPlayer_ui (c : InputMasks) (buttons i : Nat) (st : InputState) :
    (processPlayer c buttons i st).fps_enabled =
      (if smssystemOf c buttons &&& c.INPUT_START ≠ 0 then
        (if (toDWORD (smsbuttonsOf c buttons) &&& notDWORD (st.prevButtons i)) &&&
            c.INPUT_BUTTON1 ≠ 0 then !st.fps_enabled else st.fps_enabled)
      else st.fps_enabled) ∧
    (processPlayer c buttons i st).screen =
      (if smssystemOf c buttons &&& c.INPUT_START ≠ 0 then
        (if (toDWORD (smsbuttonsOf c buttons) &&& notDWORD (st.prevButtons i)) &&&
            c.INPUT_UP ≠ 0 then screenMode (-1) st.screen
        else if (toDWORD (smsbuttonsOf c buttons) &&& notDWORD (st.prevButtons i)) &&&
            c.INPUT_DOWN ≠ 0 then screenMode 1 st.screen
        else st.screen)
      else st.screen) := by
  unfold processPlayer
  dsimp only
  split_ifs <;> exact ⟨rfl, rfl⟩

theorem polls_snoc (c : InputMasks) (pre : List (Nat → Nat)) (gp : Nat → Nat)
    (st : InputState) :
    polls c (pre ++ [gp]) st = processinput c gp (polls c pre st) := by
  simp [polls, List.foldl_append]

theorem polls_snoc_two (c : InputMasks) (pre : List (Nat → Nat)) (gp1 gp2 : Nat → Nat)
    (st : InputState) :
    polls c (pre ++ [gp1, gp2]) st =
      processinput c gp2 (processinput c gp1 (polls c pre st)) := by
  simp [polls, List.foldl_append]

/-! ## Lemmas on the audio bridge -/

theorem writeChunk_fold (v : Nat → Int × Int) (l : List Nat) (ring : AudioRing) :
    l.foldl (fun acc k => acc.writeAt k (v k)) ring =
      { ring with
        slots := l.foldl (fun acc k => store acc (ring.writePos + k) (v k)) ring.slots } := by
  induction l generalizing ring with
  | nil => rfl
  | cons a t ih =>
    rw [List.foldl_cons, ih]
    rfl

theorem writeChunk_eq (wave : Nat → Int) (pos n : Nat) (ring : AudioRing) :
    writeChunk wave pos n ring =
      { ring with
        slots := (List.range n).foldl
          (fun acc k => store acc (ring.writePos + k) (stereoPair (wave (pos + k))))
          ring.slots } :=
  writeChunk_fold (fun k => stereoPair (wave (pos + k))) (List.range n) ring

theorem writeChunk_slot_written (wave : Nat → Int) (pos n : Nat) (ring : AudioRing) (k : Nat)
    (hk : k < n) :
    (writeChunk wave pos n ring).slots (ring.writePos + k) = stereoPair (wave (pos + k)) := by
  rw [writeChunk_eq]
  exact store_fold_mem (fun j => ring.writePos + j) (fun j => stereoPair (wave (pos + j)))
    (List.range n) ring.slots (List.nodup_range n)
    (fun x _ y _ e => by dsimp only at e; omega) k (List.mem_range.mpr hk)

theorem writeChunk_slot_other (wave : Nat → Int) (pos n : Nat) (ring : AudioRing) (p : Nat)
    (hp : p < ring.writePos ∨ ring.writePos + n ≤ p) :
    (writeChunk wave pos n ring).slots p = ring.slots p := by
  rw [writeChunk_eq]
  refine store_fold_other (fun j => ring.writePos + j) (fun j => stereoPair (wave (pos + j)))
    (List.range n) ring.slots p ?_
  intro j hj
  rw [List.mem_range] at hj
  dsimp only
  omega

/-- The loop of `processaudio` on the modelled ring: whatever fuel at least `samples` it
is given, it performs one chunk of `min samples free` shorts when that is positive and
nothing otherwise. -/
theorem writeLoop_eq (fuel : Nat) (wave : Nat → Int) (pos samples : Nat) (ring : AudioRing)
    (hf : samples ≤ fuel) :
    writeLoop fuel wave pos samples ring =
      if min samples ring.getWritableSize = 0 then ring
      else (writeChunk wave pos (min samples ring.getWritableSize) ring).advanceWritePointer
        (min samples ring.getWritableSize) := by
  induction fuel generalizing pos samples ring with
  | zero =>
    have h0 : samples = 0 := by omega
    subst h0
    simp [writeLoop]
  | succ f ih =>
    rw [writeLoop]
    by_cases hs : samples = 0
    · subst hs
      simp
    · rw [if_neg hs]
      dsimp only
      by_cases hn : min samples ring.getWritableSize = 0
      · rw [if_pos hn, if_pos hn]
      · rw [if_neg hn, if_neg hn]
        rw [ih _ _ _ (by omega)]
        have hfree :
            ((writeChunk wave pos (min samples ring.getWritableSize) ring).advanceWritePointer
              (min samples ring.getWritableSize)).getWritableSize =
              ring.getWritableSize - min samples ring.getWritableSize := by
          rw [writeChunk_eq]
          simp only [AudioRing.getWritableSize, AudioRing.advanceWritePointer]
          omega
        rw [hfree]
        have hz : min (samples - min samples ring.getWritableSize)
            (ring.getWritableSize - min samples ring.getWritableSize) = 0 := by
          omega
        rw [if_pos hz]

theorem fillAudioBuffer_at (snd : Snd) (ab : Nat → Int) (x : Nat) (hx : x < snd.bufsize) :
    fillAudioBuffer snd ab x = wrapSigned 32 (snd.buffer 0 x * 65536 + snd.buffer 1 x) := by
  unfold fillAudioBuffer
  exact store_fold_mem (fun j => j)
    (fun j => wrapSigned 32 (snd.buffer 0 j * 65536 + snd.buffer 1 j))
    (List.range snd.bufsize) ab (List.nodup_range _) (fun _ _ _ _ e => e) x
    (List.mem_range.mpr hx)

theorem stereoPair_duplicates (w : Int) : (stereoPair w).1 = (stereoPair w).2 := rfl

/-- What one call of `processaudio` does to the ring, for any free capacity: with
`m = min samples free`, the shorts `wave[0..m-1]` are written as pairs at the write
cursor, the cursor advances by `m`, and nothing else changes. -/
theorem processaudio_ring (snd : Snd) (st : AudioState) :
    (processaudio snd st).audio_buffer = fillAudioBuffer snd st.audio_buffer ∧
    (processaudio snd st).ring.writePos =
      st.ring.writePos + min (pendingSamples snd) st.ring.getWritableSize ∧
    (∀ k : Nat, k < min (pendingSamples snd) st.ring.getWritableSize →
      (processaudio snd st).ring.slots (st.ring.writePos + k) =
        stereoPair (waveAt (fillAudioBuffer snd st.audio_buffer) k)) ∧
    (∀ p : Nat, p < st.ring.writePos ∨
        st.ring.writePos + min (pendingSamples snd) st.ring.getWritableSize ≤ p →
      (processaudio snd st).ring.slots p = st.ring.slots p) ∧
    (processaudio snd st).ring.readPos = st.ring.readPos ∧
    (processaudio snd st).ring.capacity = st.ring.capacity ∧
    (processaudio snd st).ring.advances =
      if min (pendingSamples snd) st.ring.getWritableSize = 0 then st.ring.advances
      else st.ring.advances ++ [min (pendingSamples snd) st.ring.getWritableSize] := by
  unfold processaudio
  dsimp only
  rw [writeLoop_eq _ _ _ _ _ (le_refl _)]
  by_cases hm : min (pendingSamples snd) st.ring.getWritableSize = 0
  · rw [if_pos hm, hm]
    refine ⟨rfl, rfl, ?_, ?_, rfl, rfl, ?_⟩
    · intro k hk
      omega
    · intro p _
      rfl
    · simp
  · rw [if_neg hm]
    refine ⟨rfl, ?_, ?_, ?_, ?_, ?_, ?_⟩
    · rw [writeChunk_eq]
      rfl
    · intro k hk
      have h := writeChunk_slot_written (waveAt (fillAudioBuffer snd st.audio_buffer)) 0
        (min (pendingSamples snd) st.ring.getWritableSize) st.ring k hk
      simpa [AudioRing.advanceWritePointer] using h
    · intro p hp
      exact writeChunk_slot_other _ 0 _ st.ring p hp
    · rw [writeChunk_eq]
      rfl
    · rw [writeChunk_eq]
      rfl
    · rw [writeChunk_eq, if_neg hm]
      rfl

/-! ## The claims -/

/-- C1: over one full frame, `sms_render_line` called for the rows 0, 1, ..., 191 in
increasing order, the number of `getLineBuffer` acquisitions equals the number of
`setLineBuffer` submissions (232 each), and the row keys submitted are exactly the
display rows 4, 5, ..., 235, each once and in increasing order. The rows 4..24 and
217..235 are blank rows, the rows 25..216 are the converted source rows. -/
theorem C1_full_frame_rows (g : BitmapGeometry) (pal : Nat → Nat) (rows : Int → Nat → Nat)
    (d : Dvi) :
    (renderFrame g pal rows d).acquired = d.acquired + 232 ∧
    (renderFrame g pal rows d).submitted.length = d.submitted.length + 232 ∧
    (renderFrame g pal rows d).keys = d.keys ++ intRange 4 236 ∧
    (intRange 4 236).Nodup ∧
    (∀ k : Int, k ∈ intRange 4 236 ↔ 4 ≤ k ∧ k ≤ 235) ∧
    ∃ es : List (Int × LineBuffer),
      (renderFrame g pal rows d).submitted = d.submitted ++ es ∧
      es.map Prod.fst = intRange 4 236 ∧
      ∀ e ∈ es,
        ((25 ≤ e.1 ∧ e.1 ≤ 216) ∧ IsConverted g pal (rows (e.1 - 25)) e.2) ∨
        (((4 ≤ e.1 ∧ e.1 < 25) ∨ (216 < e.1 ∧ e.1 < 236)) ∧ IsBlank e.2) := by
  obtain ⟨hk, ha⟩ := renderFrame_fold g pal rows (intRange 0 SMS_HEIGHT) d
  obtain ⟨es, hes, hp⟩ := renderFrame_fold_entries g pal rows (intRange 0 SMS_HEIGHT) d
    (fun line hline => (mem_intRange 0 SMS_HEIGHT line).mp hline)
  have hlen : (intRange 4 236).length = 232 := by
    rw [intRange_length]
    decide
  rw [frame_keys] at hk ha
  have hkeys : es.map Prod.fst = intRange 4 236 := by
    have h := hk
    simp only [Dvi.keys] at h
    rw [hes, List.map_append] at h
    exact List.append_cancel_left h
  refine ⟨?_, ?_, ?_, intRange_nodup 4 236, ?_, es, hes, hkeys, ?_⟩
  · unfold renderFrame
    rw [ha, hlen]
  · have h := congrArg List.length hk
    simp only [Dvi.keys, List.length_map, List.length_append, hlen] at h
    exact h
  · unfold renderFrame
    exact hk
  · intro k
    rw [mem_intRange]
    omega
  · intro e he
    have h := hp e he
    simp only [SMS_HEIGHT, SCANLINEOFFSET] at h
    rcases h with ⟨⟨h1, h2⟩, h3⟩ | ⟨h1, h2⟩
    · exact Or.inl ⟨⟨h1, by omega⟩, h3⟩
    · refine Or.inr ⟨?_, h2⟩
      rcases h1 with h1 | h1
      · exact Or.inl h1
      · exact Or.inr ⟨by omega, h1.2⟩

/-- C2: for every row that `sms_render_line` converts (offset row `line + 25` not below
4) the buffer submitted under the key `line + SCANLINEOFFSET` holds, for every source
column `i` with `screenCropX ≤ i < BMP_WIDTH - screenCropX`, at cell
`32 + (i - screenCropX)` the value `palette565[buffer[i + BMP_X_OFFSET] & 0x1F]`, and
the cache index `buffer[i + BMP_X_OFFSET] & 0x1F` is below 32. -/
theorem C2_converted_row (g : BitmapGeometry) (palette565 : Nat → Nat) (line : Int)
    (buffer : Nat → Nat) (d : Dvi) (h : 4 ≤ line + SCANLINEOFFSET) :
    ∃ b : LineBuffer,
      (sms_render_line g palette565 line buffer d).lineAt (line + SCANLINEOFFSET) = some b ∧
      ∀ i : Nat, g.screenCropX ≤ i → i < g.BMP_WIDTH - g.screenCropX →
        b (32 + (i - g.screenCropX)) = palette565 (buffer (i + g.BMP_X_OFFSET) &&& 31) ∧
        buffer (i + g.BMP_X_OFFSET) &&& 31 < 32 := by
  obtain ⟨b0, hb0⟩ := sms_render_line_lineAt g palette565 line buffer d h
  refine ⟨_, hb0, ?_⟩
  intro i h1 h2
  exact ⟨convertLine_at g palette565 buffer b0 i h1 h2,
    Nat.and_lt_two_pow _ (by decide : 31 < 2 ^ 5)⟩

/-- C2 at emulated row 0 of the sample geometry. -/
theorem C2_converted_row_witness :
    (4 : Int) ≤ 0 + SCANLINEOFFSET ∧
    ∃ b : LineBuffer,
      (sms_render_line sampleGeometry samplePalette 0 sampleRow emptyDvi).lineAt
        (0 + SCANLINEOFFSET) = some b ∧
      ∀ i : Nat, sampleGeometry.screenCropX ≤ i →
        i < sampleGeometry.BMP_WIDTH - sampleGeometry.screenCropX →
        b (32 + (i - sampleGeometry.screenCropX)) =
          samplePalette (sampleRow (i + sampleGeometry.BMP_X_OFFSET) &&& 31) ∧
        sampleRow (i + sampleGeometry.BMP_X_OFFSET) &&& 31 < 32 :=
  ⟨by decide, C2_converted_row sampleGeometry samplePalette 0 sampleRow emptyDvi (by decide)⟩

/-- C3: for a slot index below 32, `sms_palette_sync(index)` stores into
`palette565[index]` the value `MAKE_PIXEL(f(c0), f(c1), f(c2))`, where `c0, c1, c2` are
the channels of `bitmap.pal.color[index]` and `f` is the spec's channel map, applied to
each channel on its own: `f 0 = 0`, `f 40 = 85`, `f 128 = 170`, `f 192 = 255` and
`f v = 0` for every other `v`; no other slot of the cache changes. -/
theorem C3_palette_sync (MAKE_PIXEL : Nat → Nat → Nat → Nat) (color : Nat → Nat → Nat)
    (index : Nat) (palette565 : Nat → Nat) (h : index < 32) :
    sms_palette_sync MAKE_PIXEL color index palette565 index =
      MAKE_PIXEL (quantizeSpec (color index 0)) (quantizeSpec (color index 1))
        (quantizeSpec (color index 2)) ∧
    (∀ k : Nat, k ≠ index → sms_palette_sync MAKE_PIXEL color index palette565 k = palette565 k) ∧
    quantizeSpec 0 = 0 ∧ quantizeSpec 40 = 85 ∧ quantizeSpec 128 = 170 ∧
    quantizeSpec 192 = 255 ∧
    (∀ v : Nat, v ≠ 0 → v ≠ 40 → v ≠ 128 → v ≠ 192 → quantizeSpec v = 0) := by
  have _hidx := h
  refine ⟨?_, ?_, by decide, by decide, by decide, by decide, ?_⟩
  · unfold sms_palette_sync
    simp only [channel_switch_eq, store, if_true]
  · intro k hk
    unfold sms_palette_sync
    simp only [store, if_neg hk]
  · intro v h0 h1 h2 h3
    simp [quantizeSpec, h0, h1, h2, h3]

/-- C3 at slot 3 of the sample palette, whose channels are 40, 128 and 192. -/
theorem C3_palette_sync_witness :
    (3 : Nat) < 32 ∧
    sms_palette_sync samplePixel sampleColor 3 samplePalette 3 = samplePixel 85 170 255 :=
  ⟨by decide, (C3_palette_sync samplePixel sampleColor 3 samplePalette (by decide)).1⟩

/-- C7, counterexample: emulated row 192 maps to display row 217, past the last visible
row 216, and the call still acquires one line buffer and submits it under key 217. -/
theorem C7_counterexample :
    SMS_HEIGHT + SCANLINEOFFSET - 1 < (192 : Int) + SCANLINEOFFSET ∧
    emptyDvi.acquired = 0 ∧ emptyDvi.keys = [] ∧
    (sms_render_line sampleGeometry samplePalette 192 sampleRow emptyDvi).acquired = 1 ∧
    (sms_render_line sampleGeometry samplePalette 192 sampleRow emptyDvi).keys = [217] ∧
    sms_render_line sampleGeometry samplePalette 192 sampleRow emptyDvi ≠ emptyDvi := by
  have ha : (sms_render_line sampleGeometry samplePalette 192 sampleRow emptyDvi).acquired
      = 1 := by
    rw [sms_render_line_acquired]
    decide
  refine ⟨by decide, rfl, rfl, ha, ?_, ?_⟩
  · rw [sms_render_line_keys]
    decide
  · intro e
    rw [e] at ha
    exact absurd ha (by decide)

/-- C7, amended: for every row index whose offset display row `line + SCANLINEOFFSET` is
below display row 4, `sms_render_line` acquires no line buffer and submits none: the
call leaves the output engine's line-buffer state unchanged. -/
theorem C7_rows_below_four_ignored (g : BitmapGeometry) (palette565 : Nat → Nat)
    (line : Int) (buffer : Nat → Nat) (d : Dvi) (h : line + SCANLINEOFFSET < 4) :
    sms_render_line g palette565 line buffer d = d := by
  unfold sms_render_line
  simp only [if_pos h]

/-- C7 amended, at emulated row -30 (display row -5). -/
theorem C7_rows_below_four_ignored_witness :
    (-30 : Int) + SCANLINEOFFSET < 4 ∧
    sms_render_line sampleGeometry samplePalette (-30) sampleRow emptyDvi = emptyDvi :=
  ⟨by decide,
    C7_rows_below_four_ignored sampleGeometry samplePalette (-30) sampleRow emptyDvi
      (by decide)⟩

/-- C8: for each of the four screen modes `s` and `delta` in {-1, +1}, `screenMode(delta)`
sets the mode to `(s + delta) mod 4` (never `MAX`; -1 from mode 0 gives mode 3);
`screenMode(+1)` then `screenMode(-1)` returns to `s`; four `screenMode(+1)` calls from
`s` visit all four modes, each once, and end at `s`. -/
theorem C8_screenMode_cycle (s : ScreenState) (delta : Int) (hs : s.screenMode_ ≠ ScreenMode.MAX)
    (hd : delta = -1 ∨ delta = 1) :
    (screenMode delta s).screenMode_.toInt = (s.screenMode_.toInt + delta) % 4 ∧
    (screenMode delta s).screenMode_ ≠ ScreenMode.MAX ∧
    (s.screenMode_ = ScreenMode.SCANLINE_8_7 →
      (screenMode (-1) s).screenMode_ = ScreenMode.NOSCANLINE_1_1) ∧
    (screenMode (-1) (screenMode 1 s)).screenMode_ = s.screenMode_ ∧
    ([(screenMode 1 s).screenMode_,
      (screenMode 1 (screenMode 1 s)).screenMode_,
      (screenMode 1 (screenMode 1 (screenMode 1 s))).screenMode_,
      (screenMode 1 (screenMode 1 (screenMode 1 (screenMode 1 s)))).screenMode_]).Nodup ∧
    (∀ m : ScreenMode, m ≠ ScreenMode.MAX →
      m ∈ [(screenMode 1 s).screenMode_,
        (screenMode 1 (screenMode 1 s)).screenMode_,
        (screenMode 1 (screenMode 1 (screenMode 1 s))).screenMode_,
        (screenMode 1 (screenMode 1 (screenMode 1 (screenMode 1 s)))).screenMode_]) ∧
    (screenMode 1 (screenMode 1 (screenMode 1 (screenMode 1 s)))).screenMode_ =
      s.screenMode_ := by
  obtain ⟨m, a, b⟩ := s
  rcases hd with rfl | rfl <;> cases m <;> cases a <;> cases b <;>
    first
    | exact absurd rfl hs
    | (refine ⟨by decide, by decide, by decide, by decide, by decide, ?_, by decide⟩
       intro m hm
       cases m <;> first | exact absurd rfl hm | decide)

/-- C8 at the start-up mode with `delta = -1`. -/
theorem C8_screenMode_cycle_witness :
    (screenMode (-1) initialScreen).screenMode_ = ScreenMode.NOSCANLINE_1_1 ∧
    (screenMode (-1) (screenMode 1 initialScreen)).screenMode_ = initialScreen.screenMode_ :=
  ⟨(C8_screenMode_cycle initialScreen (-1) (by decide) (Or.inl rfl)).2.2.1 rfl,
    (C8_screenMode_cycle initialScreen (-1) (by decide) (Or.inl rfl)).2.2.2.1⟩

/-- C9: for every player `i` and every sequence of polls, `processinput` computes
`pushed = current & ~previous` and then sets `prevButtons[i] := current`; hence, on any
poll after another, a gameplay bit is in the newly-pressed set exactly when it is held on
that poll and was not held on the preceding one, and a bit held on both polls is not
reported as newly pressed on the second. -/
theorem C9_newly_pressed_is_edge (c : InputMasks) (st : InputState)
    (pre : List (Nat → Nat)) (gp1 gp2 : Nat → Nat) (i b : Nat) (hi : i < 2) (hb : b < 32) :
    (polls c (pre ++ [gp1]) st).pushed i =
      (toDWORD (smsbuttonsOf c (gp1 i)) &&& notDWORD ((polls c pre st).prevButtons i)) ∧
    (polls c (pre ++ [gp1]) st).prevButtons i = toDWORD (smsbuttonsOf c (gp1 i)) ∧
    (((polls c (pre ++ [gp1, gp2]) st).pushed i).testBit b = true ↔
      (smsbuttonsOf c (gp2 i)).testBit b = true ∧
        (smsbuttonsOf c (gp1 i)).testBit b = false) ∧
    ((smsbuttonsOf c (gp1 i)).testBit b = true →
      (smsbuttonsOf c (gp2 i)).testBit b = true →
      ((polls c (pre ++ [gp1, gp2]) st).pushed i).testBit b = false) := by
  obtain ⟨p1, q1, _⟩ := processinput_fields c gp1 (polls c pre st) i hi
  obtain ⟨_, q2, _⟩ :=
    processinput_fields c gp2 (processinput c gp1 (polls c pre st)) i hi
  rw [polls_snoc, polls_snoc_two]
  refine ⟨q1, p1, ?_, ?_⟩
  · rw [q2, p1, testBit_pushed _ _ b hb, testBit_toDWORD _ b hb]
    simp
  · intro h1 _
    rw [q2, p1, testBit_pushed _ _ b hb, testBit_toDWORD _ b hb, h1]
    simp

/-- C9 with the sample masks: player 0 holds A on two polls in a row from start-up; the
button (bit 5, `INPUT_BUTTON1`) is not newly pressed on the second poll. -/
theorem C9_newly_pressed_is_edge_witness :
    (0 : Nat) < 2 ∧ (5 : Nat) < 32 ∧
    ((polls sampleMasks ([] ++ [onlyA, onlyA]) initialInput).pushed 0).testBit 5 = false :=
  ⟨by decide, by decide,
    (C9_newly_pressed_is_edge sampleMasks initialInput [] onlyA onlyA 0 5 (by decide)
      (by decide)).2.2.2 (by decide) (by decide)⟩

/-- C10, counterexample: with the sample masks, player 0 holds START and newly presses A.
The press is taken as the UI command (the frame-rate flag toggles) and `INPUT_BUTTON1`
is in `input.pad[0]` all the same. -/
theorem C10_counterexample :
    smssystemOf sampleMasks (startAndA 0) &&& sampleMasks.INPUT_START ≠ 0 ∧
    (processinput sampleMasks startAndA initialInput).pushed 0 &&&
      sampleMasks.INPUT_BUTTON1 ≠ 0 ∧
    (processinput sampleMasks startAndA initialInput).fps_enabled =
      !initialInput.fps_enabled ∧
    (processinput sampleMasks startAndA initialInput).pad 0 &&&
      sampleMasks.INPUT_BUTTON1 ≠ 0 := by
  decide

/-- C10, amended: `input.pad[i]` equals the mapped gameplay level state on every poll,
whether or not the system button is held. When START is held for player `i`, a gameplay
button newly pressed by that player is also taken as a UI command: button 1 toggles the
frame-rate flag, up calls `screenMode(-1)`, otherwise down calls `screenMode(+1)`. When
START is not held, no UI command is issued for that player. -/
theorem C10_pad_level_and_ui_commands (c : InputMasks) (gp : Nat → Nat) (st : InputState)
    (i : Nat) (hi : i < 2) :
    (processinput c gp st).pad i = smsbuttonsOf c (gp i) ∧
    (smssystemOf c (gp i) &&& c.INPUT_START = 0 →
      (processPlayer c (gp i) i st).fps_enabled = st.fps_enabled ∧
      (processPlayer c (gp i) i st).screen = st.screen) ∧
    (smssystemOf c (gp i) &&& c.INPUT_START ≠ 0 →
      (processPlayer c (gp i) i st).fps_enabled =
        (if (toDWORD (smsbuttonsOf c (gp i)) &&& notDWORD (st.prevButtons i)) &&&
            c.INPUT_BUTTON1 ≠ 0 then !st.fps_enabled else st.fps_enabled) ∧
      (processPlayer c (gp i) i st).screen =
        (if (toDWORD (smsbuttonsOf c (gp i)) &&& notDWORD (st.prevButtons i)) &&&
            c.INPUT_UP ≠ 0 then screenMode (-1) st.screen
        else if (toDWORD (smsbuttonsOf c (gp i)) &&& notDWORD (st.prevButtons i)) &&&
            c.INPUT_DOWN ≠ 0 then screenMode 1 st.screen
        else st.screen)) := by
  obtain ⟨u1, u2⟩ := processPlayer_ui c (gp i) i st
  refine ⟨(processinput_fields c gp st i hi).2.2, ?_, ?_⟩
  · intro h
    rw [u1, u2]
    simp [h]
  · intro h
    rw [u1, u2, if_pos h, if_pos h]
    exact ⟨rfl, rfl⟩

/-- C10 amended, with the sample masks: START and A held by player 0 from start-up;
`input.pad[0]` is the level state `INPUT_BUTTON1`. -/
theorem C10_pad_level_and_ui_commands_witness :
    (0 : Nat) < 2 ∧
    (processinput sampleMasks startAndA initialInput).pad 0 = sampleMasks.INPUT_BUTTON1 :=
  ⟨by decide,
    (C10_pad_level_and_ui_commands sampleMasks startAndA initialInput 0 (by decide)).1⟩

/-- C5: when the pending sample count `N = snd.bufsize * m_channels` does not exceed the
free capacity reported by `getWritableSize`, `processaudio` writes exactly `N` pairs, at
the `N` positions from the write cursor on, the arguments passed to
`advanceWritePointer` sum to `N` (the cursor advances by `N`), every position written
lies within the free capacity, and no other slot changes. -/
theorem C5_all_pending_written (snd : Snd) (st : AudioState)
    (h : pendingSamples snd ≤ st.ring.getWritableSize) :
    (processaudio snd st).ring.writePos = st.ring.writePos + pendingSamples snd ∧
    (processaudio snd st).ring.advances.sum = st.ring.advances.sum + pendingSamples snd ∧
    (∀ k : Nat, k < pendingSamples snd →
      (processaudio snd st).ring.slots (st.ring.writePos + k) =
        stereoPair (waveAt (processaudio snd st).audio_buffer k) ∧
      st.ring.writePos + k < st.ring.capacity + st.ring.readPos) ∧
    (∀ p : Nat, p < st.ring.writePos ∨ st.ring.writePos + pendingSamples snd ≤ p →
      (processaudio snd st).ring.slots p = st.ring.slots p) ∧
    (processaudio snd st).ring.readPos = st.ring.readPos ∧
    (processaudio snd st).ring.capacity = st.ring.capacity := by
  obtain ⟨hab, hw, hs, ho, hr, hc, ha⟩ := processaudio_ring snd st
  have hm : min (pendingSamples snd) st.ring.getWritableSize = pendingSamples snd :=
    Nat.min_eq_left h
  rw [hm] at hw hs ho ha
  refine ⟨hw, ?_, ?_, ho, hr, hc⟩
  · rw [ha]
    split_ifs with h0
    · rw [h0]
      rfl
    · simp
  · intro k hk
    refine ⟨?_, ?_⟩
    · rw [hab]
      exact hs k hk
    · unfold AudioRing.getWritableSize at h
      omega

/-- C5 on the empty ring of 256 pairs with the one-element frame (`N = 2`). -/
theorem C5_all_pending_written_witness :
    pendingSamples sndOne ≤ emptyAudio.ring.getWritableSize ∧
    (processaudio sndOne emptyAudio).ring.writePos =
      emptyAudio.ring.writePos + pendingSamples sndOne :=
  ⟨by decide, (C5_all_pending_written sndOne emptyAudio (by decide)).1⟩

/-- C4, counterexample: a frame of `N = 4` samples meets a ring with `F = 1` free slot;
the call writes one pair. The consumer then empties the ring (8 slots free) and the
next frame, a silent one, is processed: the stream delivered to the ring is seven
silent pairs, the first pair of the first frame and four silent pairs. The three pairs
left over from the first frame, (500,500), (2000,2000) and (1500,1500), are nowhere
in it. -/
theorem C4_counterexample :
    nearlyFullAudio.ring.getWritableSize = 1 ∧ pendingSamples sndTwo = 4 ∧
    ((processaudio sndTwo nearlyFullAudio).ring.consume 8).getWritableSize = 8 ∧
    (processaudio sndSilent
      { processaudio sndTwo nearlyFullAudio with
        ring := (processaudio sndTwo nearlyFullAudio).ring.consume 8 }).ring.delivered =
      [(0, 0), (0, 0), (0, 0), (0, 0), (0, 0), (0, 0), (0, 0), (1000, 1000),
        (0, 0), (0, 0), (0, 0), (0, 0)] ∧
    (List.range 4).map (fun k =>
        stereoPair (waveAt (processaudio sndTwo nearlyFullAudio).audio_buffer k)) =
      [(1000, 1000), (500, 500), (2000, 2000), (1500, 1500)] ∧
    (500, 500) ∉ (processaudio sndSilent
      { processaudio sndTwo nearlyFullAudio with
        ring := (processaudio sndTwo nearlyFullAudio).ring.consume 8 }).ring.delivered ∧
    (2000, 2000) ∉ (processaudio sndSilent
      { processaudio sndTwo nearlyFullAudio with
        ring := (processaudio sndTwo nearlyFullAudio).ring.consume 8 }).ring.delivered ∧
    (1500, 1500) ∉ (processaudio sndSilent
      { processaudio sndTwo nearlyFullAudio with
        ring := (processaudio sndTwo nearlyFullAudio).ring.consume 8 }).ring.delivered := by
  decide

/-- C4, amended: when `processaudio` has `N` pending samples and the ring has only
`F < N` free slots, the call writes exactly the first `F` samples, advances the write
cursor by `F` and returns. The remaining `N - F` samples are dropped: whatever the
consumer takes afterwards, the next call refills `audio_buffer` from the `snd` it is
given and writes that frame from its first sample on, directly behind the `F` pairs
written before. -/
theorem C4_backpressure_drops_remainder (snd : Snd) (st : AudioState)
    (h : st.ring.getWritableSize < pendingSamples snd) :
    (processaudio snd st).ring.writePos = st.ring.writePos + st.ring.getWritableSize ∧
    (∀ k : Nat, k < st.ring.getWritableSize →
      (processaudio snd st).ring.slots (st.ring.writePos + k) =
        stereoPair (waveAt (processaudio snd st).audio_buffer k)) ∧
    (∀ p : Nat, p < st.ring.writePos ∨ st.ring.writePos + st.ring.getWritableSize ≤ p →
      (processaudio snd st).ring.slots p = st.ring.slots p) ∧
    (∀ (next : Snd) (taken : Nat),
      (processaudio next
        { processaudio snd st with
          ring := (processaudio snd st).ring.consume taken }).audio_buffer =
        fillAudioBuffer next (processaudio snd st).audio_buffer ∧
      ∀ k : Nat,
        k < min (pendingSamples next)
          ((processaudio snd st).ring.consume taken).getWritableSize →
        (processaudio next
          { processaudio snd st with
            ring := (processaudio snd st).ring.consume taken }).ring.slots
          ((processaudio snd st).ring.writePos + k) =
          stereoPair (waveAt (fillAudioBuffer next (processaudio snd st).audio_buffer) k)) := by
  obtain ⟨hab, hw, hs, ho, _, _, _⟩ := processaudio_ring snd st
  have hm : min (pendingSamples snd) st.ring.getWritableSize = st.ring.getWritableSize :=
    Nat.min_eq_right (Nat.le_of_lt h)
  rw [hm] at hw hs ho
  refine ⟨hw, ?_, ho, ?_⟩
  · intro k hk
    rw [hab]
    exact hs k hk
  · intro next taken
    obtain ⟨hab2, _, hs2, _⟩ := processaudio_ring next
      { processaudio snd st with ring := (processaudio snd st).ring.consume taken }
    exact ⟨hab2, fun k hk => hs2 k hk⟩

/-- C4 amended, on the ring with one free slot and the two-element frame (`N = 4`). -/
theorem C4_backpressure_drops_remainder_witness :
    nearlyFullAudio.ring.getWritableSize < pendingSamples sndTwo ∧
    (processaudio sndTwo nearlyFullAudio).ring.writePos =
      nearlyFullAudio.ring.writePos + nearlyFullAudio.ring.getWritableSize :=
  ⟨by decide, (C4_backpressure_drops_remainder sndTwo nearlyFullAudio (by decide)).1⟩

/-- C6, the code at the failing input: one input element with channel 0 = 1000 and
channel 1 = 2000. The claim asks for one pair, left 500 (from channel 0) and right 1000
(from channel 1); `processaudio` writes two pairs, (1000,1000) from channel 1 and
(500,500) from channel 0, and every pair it ever stores has its two halves equal. -/
theorem C6_pairs_duplicate_one_value :
    sndOne.buffer 0 0 = 1000 ∧ sndOne.buffer 1 0 = 2000 ∧
    (processaudio sndOne emptyAudio).ring.delivered = [(1000, 1000), (500, 500)] ∧
    (processaudio sndOne emptyAudio).ring.delivered ≠ [(500, 1000)] ∧
    ∀ (snd : Snd) (st : AudioState) (k : Nat),
      k < min (pendingSamples snd) st.ring.getWritableSize →
      ((processaudio snd st).ring.slots (st.ring.writePos + k)).1 =
        ((processaudio snd st).ring.slots (st.ring.writePos + k)).2 := by
  refine ⟨by decide, by decide, by decide, by decide, ?_⟩
  intro snd st k hk
  rw [(processaudio_ring snd st).2.2.1 k hk]
  exact stereoPair_duplicates _

end SmsPlus
